import Mathlib

/-!
Verification of the request-scope resolution core (scope resolver, scope
controller, admission mutator, request-filter selector translation and the
scoped watch handler) against its specification.

The Go sources are embedded shallowly:

* Go strings are Lean `String`s (UTF-8 byte order and code-point order agree,
  so `String` comparisons model `strings.Compare` / `sort.Strings`).
* Go maps are association lists with unique keys.
* Go channels are modelled by their observable state.  A `chan struct{}` that
  only ever gets closed is `Option Bool`: `none` is the nil channel,
  `some false` an allocated open channel, `some true` a closed one.  A
  `*chan struct{}` is `Option (Option Bool)` (`none` = nil pointer).
  Receiving from a nil channel never becomes ready; closing a nil channel or
  sending on a closed channel is a run-time panic, which the embedding
  surfaces explicitly.
* Fallible Go functions return `Except`/`Option`; panics are explicit values.
-/

/-- Model of `strings.Cut(s, sep)` for a single-character separator, on the
character list of the string: `some (before, after)` when the separator
occurs ( `after` is everything past its first occurrence), `none` when it
does not occur. -/
def cutChar (c : Char) : List Char → Option (List Char × List Char)
  | [] => none
  | x :: xs =>
    if x = c then some ([], xs)
    else (cutChar c xs).map (fun pr => (x :: pr.1, pr.2))

/-- Model of `strings.SplitN(s, ":", 2)` followed by indexing `parts[0]` and
`parts[1]`: `some (name, value)` when the name contains a colon, `none` when
it does not (in which case the Go code's `parts[1]` panics with an
index-out-of-range run-time error). -/
def splitN2Colon (s : String) : Option (String × String) :=
  match cutChar ':' s.data with
  | none => none
  | some (pre, post) => some (String.mk pre, String.mk post)

/-- Errors flowing through the scope subsystem.  `badRequest` models
`apierrors.NewBadRequest`, `internalErr` models `apierrors.NewInternalError`
wrapping its cause, and `resourceExpired` models
`apierrors.NewResourceExpired` carrying the offending initial and minimum
resource versions (the Go code embeds them in the message). -/
inductive GoError where
  | msg (s : String)
  | badRequest (s : String)
  | internalErr (cause : GoError)
  | resourceExpired (initialRV minimumRV : Nat)
deriving DecidableEq, Repr

/-- The `scope` struct of `scopedefinition_resolver.go`: the in-memory
representation of a scope→namespaces mapping.  `expiredCh` is the
`*chan struct{}` field: `none` is a nil pointer (the `newScope`
constructor leaves it unset), `some none` a pointer to a nil channel
(`new(chan struct{})` allocates a zeroed channel, i.e. nil), and
`some (some b)` a pointer to an allocated channel with `b` recording whether
it has been closed. -/
structure GoScope where
  name : String
  value : String
  namespaces : List String
  identifier : String
  current : Bool
  err : Option GoError
  expiredCh : Option (Option Bool)
deriving DecidableEq, Repr

/-- `newScope` from `scopedefinition_resolver.go`: only the value, identifier
and namespaces are set; `current`, `err` and `expiredCh` keep their Go zero
values (`false`, `nil`, `nil`). -/
def newScope (name value identifier : String) (namespaces : List String) : GoScope :=
  { name := name
    value := value
    namespaces := namespaces
    identifier := identifier
    current := false
    err := none
    expiredCh := none }

/-- The `Expired()` method of `scope`: returns the channel the receiver holds
a pointer to, or the nil channel when the pointer itself is nil. -/
def GoScope.ExpiredChan (s : GoScope) : Option Bool :=
  match s.expiredCh with
  | none => none
  | some c => c

/-- The package-level `Expired` helper of `scope_util.go`:
`select { case <-s.Expired(): return true; default: return false }`.
The receive is ready exactly when the channel is non-nil and closed (nothing
is ever sent on expiration channels); a nil channel is never ready, so the
`default` branch yields `false`. -/
def Expired (s : GoScope) : Bool :=
  match s.ExpiredChan with
  | some true => true
  | _ => false

/-- The `expire` method of `scope`: an early return when the scope is no
longer current, otherwise it marks the scope non-current, records the reason
and closes the expiration channel.  Closing panics when the channel pointer
is nil (dereference) or the channel itself is nil or already closed; the
mutations to `current` and `err` have already happened at that point.  The
second component is `some msg` when the call panics. -/
def GoScope.expireStep (s : GoScope) (reason : Option GoError) : GoScope × Option String :=
  if s.current = false then (s, none)
  else
    let s' := { s with current := false, err := reason }
    match s.expiredCh with
    | none => (s', some "invalid memory address or nil pointer dereference")
    | some none => (s', some "close of nil channel")
    | some (some true) => (s', some "close of closed channel")
    | some (some false) => ({ s' with expiredCh := some (some true) }, none)

/-- Claim C10: the `Expired` helper reports `false` for every scope whose
expiration channel is unset — in particular for every scope built by
`newScope` — and reports `true` exactly when the scope holds a non-nil
pointer to a non-nil channel that has been closed. -/
theorem Expired_iff_closed_channel :
    (∀ name value identifier namespaces,
      Expired (newScope name value identifier namespaces) = false) ∧
    (∀ s : GoScope, s.ExpiredChan = none → Expired s = false) ∧
    (∀ s : GoScope, Expired s = true ↔ s.expiredCh = some (some true)) := by
  refine ⟨fun _ _ _ _ => rfl, fun s h => ?_, fun s => ?_⟩
  · simp [Expired, h]
  · constructor
    · intro h
      unfold Expired GoScope.ExpiredChan at h
      rcases hc : s.expiredCh with _ | c
      · rw [hc] at h; simp at h
      · rw [hc] at h
        rcases c with _ | b
        · simp at h
        · rcases b with _ | _
          · simp at h
          · rfl
    · intro h
      simp [Expired, GoScope.ExpiredChan, h]

/-- `TransformScopedResourceVersion` from `endpoints/handlers/scopes.go`,
acting on the object's resourceVersion string.  Returns the new
resourceVersion together with a flag recording whether the
"missing generation marker" warning was logged.  The Go guard
`len(rv) == 0 || rv[0] != '0'` is the test that the first character is not
`'0'` (for UTF-8 strings a leading `'0'` byte is a one-byte character);
`strings.Cut(rv, "9")` keeps the part after the first `'9'`. -/
def TransformScopedResourceVersion (rv : String) : String × Bool :=
  if rv.data.head? ≠ some '0' then (rv, false)
  else
    match cutChar '9' rv.data with
    | none => (rv, true)
    | some (_, post) => (String.mk post, false)

/-- The specification's description of scope-prefixed resource version
stripping, written directly from the spec's words: a non-empty
resourceVersion beginning with `'0'` has everything up to and including the
first `'9'` stripped; when it is empty, does not begin with `'0'`, or
contains no `'9'`, it passes through unchanged, with a warning emitted
exactly in the leading-`'0'`-but-no-`'9'` case. -/
def specScopedResourceVersion (rv : String) : String × Bool :=
  if rv.data.head? = some '0' then
    if '9' ∈ rv.data then
      (String.mk ((rv.data.dropWhile (· ≠ '9')).tail), false)
    else (rv, true)
  else (rv, false)

theorem cutChar_eq_none_iff (c : Char) (l : List Char) :
    cutChar c l = none ↔ c ∉ l := by
  induction l with
  | nil => simp [cutChar]
  | cons x xs ih =>
    simp only [cutChar, List.mem_cons]
    by_cases hx : x = c
    · subst hx; simp
    · rw [if_neg hx]
      rw [Option.map_eq_none']
      rw [ih]
      constructor
      · intro h hm
        rcases hm with h1 | h2
        · exact hx h1.symm
        · exact h h2
      · intro h hm
        exact h (Or.inr hm)

theorem cutChar_eq_some (c : Char) (l : List Char) :
    ∀ pre post, cutChar c l = some (pre, post) →
      l = pre ++ c :: post ∧ c ∉ pre := by
  induction l with
  | nil => intro pre post h; simp [cutChar] at h
  | cons x xs ih =>
    intro pre post h
    simp only [cutChar] at h
    by_cases hx : x = c
    · subst hx
      rw [if_pos rfl] at h
      simp only [Option.some.injEq, Prod.mk.injEq] at h
      obtain ⟨h1, h2⟩ := h
      subst h1; subst h2
      exact ⟨rfl, by simp⟩
    · rw [if_neg hx] at h
      rcases hcut : cutChar c xs with _ | ⟨p1, p2⟩
      · rw [hcut] at h; simp at h
      · rw [hcut] at h
        simp only [Option.map_some', Option.some.injEq, Prod.mk.injEq] at h
        obtain ⟨h1, h2⟩ := h
        obtain ⟨heq, hnm⟩ := ih p1 p2 hcut
        subst h1
        subst h2
        constructor
        · rw [heq]; rfl
        · intro hmem
          rcases List.mem_cons.mp hmem with hzz | hzz
          · exact hx hzz.symm
          · exact hnm hzz

theorem dropWhile_append_cons (c : Char) (pre post : List Char) (hnm : c ∉ pre) :
    ((pre ++ c :: post).dropWhile (· ≠ c)) = c :: post := by
  induction pre with
  | nil => simp
  | cons y ys ih =>
    have hy : ¬(y = c) := fun hc => hnm (by simp [hc])
    rw [List.cons_append, List.dropWhile_cons]
    rw [if_pos (by simp [hy])]
    exact ih (fun hm => hnm (List.mem_cons_of_mem _ hm))

theorem cutChar_post (c : Char) (l pre post : List Char)
    (h : cutChar c l = some (pre, post)) :
    post = (l.dropWhile (· ≠ c)).tail := by
  obtain ⟨heq, hnm⟩ := cutChar_eq_some c l pre post h
  subst heq
  rw [dropWhile_append_cons c pre post hnm]
  rfl

/-- Claim C9: the write-path resourceVersion transformation computed by the
code coincides, on every input string, with the behaviour stated in the
spec — strip through the first `'9'` when the string is non-empty and starts
with `'0'`, otherwise pass through unchanged, warning exactly when a leading
`'0'` is not followed by any `'9'`. -/
theorem TransformScopedResourceVersion_eq_spec (rv : String) :
    TransformScopedResourceVersion rv = specScopedResourceVersion rv := by
  unfold TransformScopedResourceVersion specScopedResourceVersion
  by_cases h0 : rv.data.head? = some '0'
  · rw [if_neg (by simp [h0]), if_pos h0]
    rcases hcut : cutChar '9' rv.data with _ | ⟨pre, post⟩
    · rw [if_neg ((cutChar_eq_none_iff _ _).mp hcut)]
    · have hmem : '9' ∈ rv.data := by
        obtain ⟨heq, _⟩ := cutChar_eq_some '9' rv.data pre post hcut
        rw [heq]; simp
      rw [if_pos hmem, cutChar_post '9' rv.data pre post hcut]
  · rw [if_pos h0, if_neg h0]

/-! ## Byte-wise string comparison

Go's `sort.Strings` and `strings.Compare` compare strings byte-wise; for
UTF-8 encoded strings byte order coincides with code-point order, so the
comparison is modelled on character lists. -/

/-- Lexicographic "less or equal" on character lists, by code point. -/
def charListLe : List Char → List Char → Bool
  | [], _ => true
  | _ :: _, [] => false
  | x :: xs, y :: ys =>
    if x < y then true
    else if y < x then false
    else charListLe xs ys

/-- `strings.Compare a b <= 0` as a boolean on strings. -/
def strLe (a b : String) : Bool := charListLe a.data b.data

/-- The ordering relation used when modelling Go sorts of string slices. -/
def strLeR (a b : String) : Prop := strLe a b = true

instance : DecidableRel strLeR := fun _ _ => inferInstanceAs (Decidable (_ = true))

theorem charListLe_total : ∀ a b, charListLe a b = true ∨ charListLe b a = true := by
  intro a
  induction a with
  | nil => intro b; left; rfl
  | cons x xs ih =>
    intro b
    cases b with
    | nil => right; rfl
    | cons y ys =>
      rcases lt_trichotomy x y with h | h | h
      · left
        simp only [charListLe]
        rw [if_pos h]
      · subst h
        rcases ih ys with hle | hle
        · left
          simp only [charListLe]
          rw [if_neg (lt_irrefl x), if_neg (lt_irrefl x)]
          exact hle
        · right
          simp only [charListLe]
          rw [if_neg (lt_irrefl x), if_neg (lt_irrefl x)]
          exact hle
      · right
        simp only [charListLe]
        rw [if_pos h]

theorem charListLe_trans :
    ∀ a b c, charListLe a b = true → charListLe b c = true → charListLe a c = true := by
  intro a
  induction a with
  | nil => intro b c _ _; rfl
  | cons x xs ih =>
    intro b c hab hbc
    cases b with
    | nil => simp [charListLe] at hab
    | cons y ys =>
      cases c with
      | nil => simp [charListLe] at hbc
      | cons z zs =>
        rcases lt_trichotomy x y with hxy | hxy | hxy
        · rcases lt_trichotomy y z with hyz | hyz | hyz
          · simp only [charListLe]
            rw [if_pos (lt_trans hxy hyz)]
          · subst hyz
            simp only [charListLe]
            rw [if_pos hxy]
          · exfalso
            simp only [charListLe] at hbc
            rw [if_neg (lt_asymm hyz), if_pos hyz] at hbc
            exact Bool.false_ne_true hbc
        · subst hxy
          rcases lt_trichotomy x z with hxz | hxz | hxz
          · simp only [charListLe]
            rw [if_pos hxz]
          · subst hxz
            simp only [charListLe] at hab hbc ⊢
            rw [if_neg (lt_irrefl x), if_neg (lt_irrefl x)] at hab hbc ⊢
            exact ih ys zs hab hbc
          · exfalso
            simp only [charListLe] at hbc
            rw [if_neg (lt_asymm hxz), if_pos hxz] at hbc
            exact Bool.false_ne_true hbc
        · exfalso
          simp only [charListLe] at hab
          rw [if_neg (lt_asymm hxy), if_pos hxy] at hab
          exact Bool.false_ne_true hab

theorem charListLe_antisymm :
    ∀ a b, charListLe a b = true → charListLe b a = true → a = b := by
  intro a
  induction a with
  | nil =>
    intro b _ hba
    cases b with
    | nil => rfl
    | cons y ys => simp [charListLe] at hba
  | cons x xs ih =>
    intro b hab hba
    cases b with
    | nil => simp [charListLe] at hab
    | cons y ys =>
      rcases lt_trichotomy x y with hxy | hxy | hxy
      · exfalso
        simp only [charListLe] at hba
        rw [if_neg (lt_asymm hxy), if_pos hxy] at hba
        exact Bool.false_ne_true hba
      · subst hxy
        simp only [charListLe] at hab hba
        rw [if_neg (lt_irrefl x), if_neg (lt_irrefl x)] at hab hba
        rw [ih ys hab hba]
      · exfalso
        simp only [charListLe] at hab
        rw [if_neg (lt_asymm hxy), if_pos hxy] at hab
        exact Bool.false_ne_true hab

instance : IsTotal String strLeR :=
  ⟨fun a b => charListLe_total a.data b.data⟩

instance : IsTrans String strLeR :=
  ⟨fun a b c hab hbc => charListLe_trans a.data b.data c.data hab hbc⟩

instance : IsAntisymm String strLeR :=
  ⟨fun a b hab hba => by
    have h := charListLe_antisymm a.data b.data hab hba
    cases a
    cases b
    exact congrArg String.mk h⟩

/-! ## Scope controller (`requestscoping/scope_controller.go`) -/

/-- Set equality of the element lists, as computed by
`sets.New(l1...).Equal(sets.New(l2...))`: mutual containment (set semantics,
so this is extensionally equality of the two element sets). -/
def setEq (l1 l2 : List String) : Bool :=
  l1.all (fun x => l2.elem x) && l2.all (fun x => l1.elem x)

theorem setEq_iff (l1 l2 : List String) :
    setEq l1 l2 = true ↔ ∀ x, x ∈ l1 ↔ x ∈ l2 := by
  unfold setEq
  rw [Bool.and_eq_true, List.all_eq_true, List.all_eq_true]
  constructor
  · rintro ⟨h1, h2⟩ x
    exact ⟨fun hx => List.elem_iff.mp (h1 x hx), fun hx => List.elem_iff.mp (h2 x hx)⟩
  · intro h
    exact ⟨fun x hx => List.elem_iff.mpr ((h x).mp hx),
           fun x hx => List.elem_iff.mpr ((h x).mpr hx)⟩

/-- The status computation of `Controller.process`: when the set of names in
`spec.namespaces` equals the set in `status.namespaces` nothing is done and
the status list is kept; otherwise the status becomes the sorted list of the
distinct names of `spec.namespaces` (`sets.New(spec...).UnsortedList()`
followed by `sort.Strings`, rendered deterministically as a sort of
`List.dedup`, which has the same elements). -/
def Controller.process (specNamespaces statusNamespaces : List String) : List String :=
  if setEq specNamespaces statusNamespaces then statusNamespaces
  else List.insertionSort strLeR specNamespaces.dedup

/-- Counterexample to claim C5 as stated: a reconcile of a ScopeDefinition
whose `status.namespaces` is already set-equal to `spec.namespaces` but not
sorted leaves the unsorted status in place, so after the reconcile
`status.namespaces` is not the sorted deduplication of `spec.namespaces`. -/
theorem Controller_process_unsorted_counterexample :
    Controller.process ["b", "a"] ["b", "a"] = ["b", "a"] ∧
    List.insertionSort strLeR (["b", "a"].dedup) = ["a", "b"] ∧
    Controller.process ["b", "a"] ["b", "a"] ≠
      List.insertionSort strLeR ((["b", "a"] : List String).dedup) := by
  refine ⟨by decide, by decide, by decide⟩

/-- Claim C5 (amended): after the scope controller reconciles a
ScopeDefinition whose pre-state `status.namespaces` is sorted and
duplicate-free (as every status previously written by this controller is,
the empty status included), the resulting `status.namespaces` is the sorted,
duplicate-free sequence of the names in `spec.namespaces`. -/
theorem Controller_process_sortedDedup (specNs statusNs : List String)
    (hs : List.Sorted strLeR statusNs) (hn : statusNs.Nodup) :
    Controller.process specNs statusNs = List.insertionSort strLeR specNs.dedup := by
  unfold Controller.process
  by_cases h : setEq specNs statusNs = true
  · rw [if_pos h]
    have hiff : ∀ x, x ∈ specNs ↔ x ∈ statusNs := (setEq_iff _ _).mp h
    have hperm : List.Perm statusNs specNs.dedup :=
      (List.perm_ext_iff_of_nodup hn (List.nodup_dedup _)).mpr
        (fun a => by rw [List.mem_dedup]; exact (hiff a).symm)
    have hperm2 : List.Perm statusNs (List.insertionSort strLeR specNs.dedup) :=
      hperm.trans (List.perm_insertionSort strLeR _).symm
    exact List.eq_of_perm_of_sorted hperm2 hs (List.sorted_insertionSort strLeR _)
  · rw [if_neg h]

/-- Witness for the amended C5 theorem at a concrete input exercising the
set-equal branch. -/
theorem Controller_process_sortedDedup_witness :
    List.Sorted strLeR ["a", "b"] ∧ (["a", "b"] : List String).Nodup ∧
    Controller.process ["b", "a", "b"] ["a", "b"] =
      List.insertionSort strLeR ((["b", "a", "b"] : List String).dedup) :=
  ⟨by decide, by decide,
    Controller_process_sortedDedup ["b", "a", "b"] ["a", "b"] (by decide) (by decide)⟩

/-! ## Admission mutator (`plugin/pkg/admission/scopes/admission.go`) -/

/-- `ServerScopeVersion` from the scopes API types. -/
structure ServerScopeVersion where
  apiServerID : String
  storeID : String
  scopeID : String
  resourceVersion : String
deriving DecidableEq, Repr

/-- `MinimumResourceVersion` from the scopes API types. -/
structure MinimumResourceVersion where
  storeID : String
  resourceVersion : String
deriving DecidableEq, Repr

/-- The `versioner.ParseResourceVersion` calls performed while grouping in
`buildMinimumResourceVersions`: each entry's resourceVersion is parsed, and
the first failure aborts the computation.  The parser itself is the
`storage.Versioner` interface value, kept as a parameter. -/
def parseAllSSVs (parse : String → Option Nat) :
    List ServerScopeVersion → Option (List (ServerScopeVersion × Nat))
  | [] => some []
  | ssv :: rest =>
    match parse ssv.resourceVersion, parseAllSSVs parse rest with
    | some rv, some tail => some ((ssv, rv) :: tail)
    | _, _ => none

/-- Selection of `vals[0]` after `buildMinimumResourceVersions` sorts a
store's group descending by parsed resource version: an entry of the group
with maximal parsed value.  (Go's `sort.Slice` is unstable, so among entries
tied at the maximal value any may be picked; this model deterministically
keeps the earliest.  The claims only depend on the parsed value.) -/
def pickMaxRV (h : ServerScopeVersion × Nat) (t : List (ServerScopeVersion × Nat)) :
    ServerScopeVersion × Nat :=
  t.foldl (fun best v => if best.2 < v.2 then v else best) h

/-- The body of the per-store loop of `buildMinimumResourceVersions`: the
`MinimumResourceVersion` entry emitted for one storeID, carrying the
resourceVersion string of the group entry with the highest parsed value.
The empty-group branch is unreachable when `sid` is a grouped storeID. -/
def minimumRVForStore (vals : List (ServerScopeVersion × Nat))
    (sid : String) : MinimumResourceVersion :=
  match vals.filter (fun v => v.1.storeID == sid) with
  | [] => { storeID := sid, resourceVersion := "" }
  | h :: t => { storeID := sid, resourceVersion := (pickMaxRV h t).1.resourceVersion }

/-- `buildMinimumResourceVersions` from the Scope admission plugin: group the
`serverScopeVersions` entries by storeID, take for every store the entry
with the highest parsed resourceVersion, and return the per-store results
sorted ascending by storeID (`sort.SliceStable` with `strings.Compare`; the
nondeterministic Go map iteration order is erased by that final sort). -/
def buildMinimumResourceVersions (parse : String → Option Nat)
    (ssvs : List ServerScopeVersion) : Option (List MinimumResourceVersion) :=
  match parseAllSSVs parse ssvs with
  | none => none
  | some vals =>
    let storeIDs := List.insertionSort strLeR ((ssvs.map (fun s => s.storeID)).dedup)
    some (storeIDs.map (minimumRVForStore vals))

/-- The multiset of successfully parsed resourceVersions reported for one
store, used to state the "maximum per store" property. -/
def storeRVs (parse : String → Option Nat) (ssvs : List ServerScopeVersion)
    (sid : String) : List Nat :=
  (ssvs.filter (fun ssv => ssv.storeID == sid)).filterMap
    (fun ssv => parse ssv.resourceVersion)

theorem parseAllSSVs_sound (parse : String → Option Nat) :
    ∀ ssvs vals, parseAllSSVs parse ssvs = some vals →
      vals.map Prod.fst = ssvs ∧
      ∀ p ∈ vals, parse p.1.resourceVersion = some p.2 := by
  intro ssvs
  induction ssvs with
  | nil =>
    intro vals h
    simp only [parseAllSSVs, Option.some.injEq] at h
    subst h
    exact ⟨rfl, by simp⟩
  | cons ssv rest ih =>
    intro vals h
    simp only [parseAllSSVs] at h
    rcases hp : parse ssv.resourceVersion with _ | rv
    · rw [hp] at h; cases h
    · rw [hp] at h
      rcases hr : parseAllSSVs parse rest with _ | tail
      · rw [hr] at h; cases h
      · rw [hr] at h
        simp only [Option.some.injEq] at h
        subst h
        obtain ⟨h1, h2⟩ := ih tail hr
        refine ⟨by simp [h1], ?_⟩
        intro p hp'
        rcases List.mem_cons.mp hp' with hh | hh
        · subst hh; exact hp
        · exact h2 p hh

theorem parseAllSSVs_filter (parse : String → Option Nat) :
    ∀ ssvs vals, parseAllSSVs parse ssvs = some vals → ∀ sid,
      (vals.filter (fun v => v.1.storeID == sid)).map Prod.snd =
        storeRVs parse ssvs sid := by
  intro ssvs
  induction ssvs with
  | nil =>
    intro vals h sid
    simp only [parseAllSSVs, Option.some.injEq] at h
    subst h
    simp [storeRVs]
  | cons ssv rest ih =>
    intro vals h sid
    simp only [parseAllSSVs] at h
    rcases hp : parse ssv.resourceVersion with _ | rv
    · rw [hp] at h; cases h
    · rw [hp] at h
      rcases hr : parseAllSSVs parse rest with _ | tail
      · rw [hr] at h; cases h
      · rw [hr] at h
        simp only [Option.some.injEq] at h
        subst h
        have ihs := ih tail hr sid
        by_cases hsid : ssv.storeID == sid
        · simp only [storeRVs] at ihs
          simp [storeRVs, List.filter_cons, List.filterMap_cons, hsid, hp, ihs]
        · simp [storeRVs, List.filter_cons, hsid, ihs]

theorem pickMaxRV_mem (h : ServerScopeVersion × Nat)
    (t : List (ServerScopeVersion × Nat)) : pickMaxRV h t ∈ h :: t := by
  induction t generalizing h with
  | nil => simp [pickMaxRV]
  | cons v rest ih =>
    unfold pickMaxRV
    rw [List.foldl_cons]
    have step := ih (if h.2 < v.2 then v else h)
    unfold pickMaxRV at step
    by_cases hc : h.2 < v.2
    · rw [if_pos hc] at step ⊢
      rcases List.mem_cons.mp step with h1 | h1
      · rw [h1]
        exact List.mem_cons_of_mem _ (List.mem_cons_self v rest)
      · exact List.mem_cons_of_mem _ (List.mem_cons_of_mem _ h1)
    · rw [if_neg hc] at step ⊢
      rcases List.mem_cons.mp step with h1 | h1
      · rw [h1]; exact List.mem_cons_self h (v :: rest)
      · exact List.mem_cons_of_mem _ (List.mem_cons_of_mem _ h1)

theorem pickMaxRV_ge (h : ServerScopeVersion × Nat)
    (t : List (ServerScopeVersion × Nat)) :
    ∀ p ∈ h :: t, p.2 ≤ (pickMaxRV h t).2 := by
  induction t generalizing h with
  | nil =>
    intro p hp
    rcases List.mem_cons.mp hp with h1 | h1
    · rw [h1]; exact le_refl _
    · cases h1
  | cons v rest ih =>
    intro p hp
    unfold pickMaxRV
    rw [List.foldl_cons]
    have step := ih (if h.2 < v.2 then v else h)
    unfold pickMaxRV at step
    have hhead : h.2 ≤ (if h.2 < v.2 then v else h).2 := by
      by_cases hc : h.2 < v.2
      · rw [if_pos hc]; exact le_of_lt hc
      · rw [if_neg hc]
    have hv : v.2 ≤ (if h.2 < v.2 then v else h).2 := by
      by_cases hc : h.2 < v.2
      · rw [if_pos hc]
      · rw [if_neg hc]; exact le_of_not_lt hc
    have hsel : ((if h.2 < v.2 then v else h)).2 ≤
        (List.foldl (fun best w => if best.2 < w.2 then w else best)
          (if h.2 < v.2 then v else h) rest).2 :=
      step _ (List.mem_cons_self _ _)
    rcases List.mem_cons.mp hp with h1 | h1
    · rw [h1]; exact le_trans hhead hsel
    · rcases List.mem_cons.mp h1 with h2 | h2
      · rw [h2]; exact le_trans hv hsel
      · exact step p (List.mem_cons_of_mem _ h2)

theorem minimumRVForStore_storeID (vals : List (ServerScopeVersion × Nat))
    (sid : String) : (minimumRVForStore vals sid).storeID = sid := by
  unfold minimumRVForStore
  split <;> rfl

theorem filter_beq_singleton_of_nodup :
    ∀ l : List String, l.Nodup → ∀ a ∈ l, l.filter (fun x => x == a) = [a] := by
  intro l
  induction l with
  | nil => intro _ a ha; cases ha
  | cons x xs ih =>
    intro hn a ha
    rcases List.mem_cons.mp ha with h1 | h1
    · subst h1
      rw [List.filter_cons, if_pos (by simp)]
      have hx : a ∉ xs := (List.nodup_cons.mp hn).1
      have hnilf : xs.filter (fun y => y == a) = [] := by
        rw [List.filter_eq_nil_iff]
        intro y hy hbeq
        have hyx : y = a := beq_iff_eq.mp hbeq
        exact hx (hyx ▸ hy)
      rw [hnilf]
    · have hxa : ¬(x == a) = true := by
        intro hbeq
        have hxeq : x = a := beq_iff_eq.mp hbeq
        exact (List.nodup_cons.mp hn).1 (hxeq ▸ h1)
      rw [List.filter_cons, if_neg hxa]
      exact ih (List.nodup_cons.mp hn).2 a h1

/-- Claim C2: whenever the admission mutator's recomputation of
`status.minimumResourceVersions` from `status.serverScopeVersions` succeeds,
then for every storeID occurring in `serverScopeVersions` the result holds
exactly one entry for that store, and that entry's resourceVersion parses to
the maximum of the parsed resourceVersions of all `serverScopeVersions`
entries reported for the store. -/
theorem buildMinimumResourceVersions_max (parse : String → Option Nat)
    (ssvs : List ServerScopeVersion) (res : List MinimumResourceVersion)
    (h : buildMinimumResourceVersions parse ssvs = some res)
    (sid : String) (hsid : sid ∈ ssvs.map (fun s => s.storeID)) :
    (res.filter (fun e => e.storeID == sid)).length = 1 ∧
    ∀ e ∈ res, e.storeID = sid →
      ∃ m, parse e.resourceVersion = some m ∧
        m ∈ storeRVs parse ssvs sid ∧
        ∀ v ∈ storeRVs parse ssvs sid, v ≤ m := by
  unfold buildMinimumResourceVersions at h
  rcases hpa : parseAllSSVs parse ssvs with _ | vals
  · rw [hpa] at h; cases h
  · rw [hpa] at h
    simp only [Option.some.injEq] at h
    obtain ⟨hmapfst, hparsed⟩ := parseAllSSVs_sound parse ssvs vals hpa
    have hfil := parseAllSSVs_filter parse ssvs vals hpa sid
    have hnodup : (List.insertionSort strLeR
        ((ssvs.map (fun s => s.storeID)).dedup)).Nodup :=
      ((List.perm_insertionSort strLeR _).nodup_iff).mpr (List.nodup_dedup _)
    have hmem : sid ∈ List.insertionSort strLeR
        ((ssvs.map (fun s => s.storeID)).dedup) := by
      rw [List.mem_insertionSort, List.mem_dedup]
      exact hsid
    constructor
    · rw [← h, List.filter_map, List.length_map]
      have hcong : (List.insertionSort strLeR
            ((ssvs.map (fun s => s.storeID)).dedup)).filter
              ((fun e => e.storeID == sid) ∘ minimumRVForStore vals) =
          (List.insertionSort strLeR
            ((ssvs.map (fun s => s.storeID)).dedup)).filter (fun x => x == sid) := by
        apply List.filter_congr
        intro a _
        simp only [Function.comp_apply, minimumRVForStore_storeID]
      rw [hcong, filter_beq_singleton_of_nodup _ hnodup sid hmem]
      rfl
    · intro e he hesid
      rw [← h] at he
      obtain ⟨sid', _, hfe⟩ := List.mem_map.mp he
      have hsideq : sid' = sid := by
        rw [← hesid, ← hfe, minimumRVForStore_storeID]
      subst hsideq
      rcases hm : vals.filter (fun v => v.1.storeID == sid') with _ | ⟨hh, tt⟩
      · exfalso
        obtain ⟨ssv, hssv, hsseq⟩ := List.mem_map.mp hsid
        rw [← hmapfst] at hssv
        obtain ⟨p, hpv, hpe⟩ := List.mem_map.mp hssv
        have hpfil : p ∈ vals.filter (fun v => v.1.storeID == sid') :=
          List.mem_filter.mpr ⟨hpv, beq_iff_eq.mpr (by rw [hpe]; exact hsseq)⟩
        rw [hm] at hpfil
        cases hpfil
      · have he' : e = (⟨sid', (pickMaxRV hh tt).1.resourceVersion⟩ :
            MinimumResourceVersion) := by
          rw [← hfe]
          unfold minimumRVForStore
          rw [hm]
        have hqmem : pickMaxRV hh tt ∈ hh :: tt := pickMaxRV_mem hh tt
        have hqvals : pickMaxRV hh tt ∈ vals := by
          have hmm : pickMaxRV hh tt ∈ vals.filter (fun v => v.1.storeID == sid') := by
            rw [hm]
            exact hqmem
          exact List.mem_of_mem_filter hmm
        refine ⟨(pickMaxRV hh tt).2, ?_, ?_, ?_⟩
        · rw [he']
          exact hparsed _ hqvals
        · rw [← hfil, hm]
          exact List.mem_map_of_mem Prod.snd hqmem
        · intro v hv
          rw [← hfil, hm] at hv
          obtain ⟨p, hp1, hp2⟩ := List.mem_map.mp hv
          rw [← hp2]
          exact pickMaxRV_ge hh tt p hp1

/-- `storage.APIObjectVersioner.ParseResourceVersion`: the empty string
parses to 0, otherwise `strconv.ParseUint(s, 10, 64)` — decimal digits only,
value below 2^64 (overflow is an error). -/
def parseDigits : List Char → Nat → Option Nat
  | [], acc => some acc
  | c :: rest, acc =>
    if '0' ≤ c ∧ c ≤ '9' then parseDigits rest (acc * 10 + (c.toNat - '0'.toNat))
    else none

def parseResourceVersion (s : String) : Option Nat :=
  if s = "" then some 0
  else
    match parseDigits s.data 0 with
    | none => none
    | some n => if n < 2 ^ 64 then some n else none

/-- Witness for the C2 theorem at the spec's S3-style input: two servers
report store-X at resourceVersions 100 and 50; the derived minimum is the
single entry (store-X, "100"). -/
theorem buildMinimumResourceVersions_max_witness :
    buildMinimumResourceVersions parseResourceVersion
        [⟨"server-1", "store-X", "g2", "100"⟩, ⟨"server-2", "store-X", "g2", "50"⟩]
      = some [⟨"store-X", "100"⟩] ∧
    "store-X" ∈ (([⟨"server-1", "store-X", "g2", "100"⟩,
        ⟨"server-2", "store-X", "g2", "50"⟩] : List ServerScopeVersion).map
          (fun s => s.storeID)) ∧
    ((([⟨"store-X", "100"⟩] : List MinimumResourceVersion).filter
        (fun e => e.storeID == "store-X")).length = 1 ∧
      ∀ e ∈ ([⟨"store-X", "100"⟩] : List MinimumResourceVersion),
        e.storeID = "store-X" →
        ∃ m, parseResourceVersion e.resourceVersion = some m ∧
          m ∈ storeRVs parseResourceVersion
              [⟨"server-1", "store-X", "g2", "100"⟩,
                ⟨"server-2", "store-X", "g2", "50"⟩] "store-X" ∧
          ∀ v ∈ storeRVs parseResourceVersion
              [⟨"server-1", "store-X", "g2", "100"⟩,
                ⟨"server-2", "store-X", "g2", "50"⟩] "store-X", v ≤ m) :=
  ⟨by decide, by decide,
    buildMinimumResourceVersions_max parseResourceVersion _ _ (by decide)
      "store-X" (by decide)⟩

/-! ## Request filter selector translation (`endpoints/handlers/scopes.go`) -/

/-- Operators of label selector requirements appearing on this path. -/
inductive LabelOp where
  | eqOp
  | inOp
deriving DecidableEq, Repr

/-- A label selector requirement (`labels.Requirement`). -/
structure LabelRequirement where
  key : String
  op : LabelOp
  values : List String
deriving DecidableEq, Repr

/-- `labels.NewRequirement(key, op, vals)` restricted to what this path
exercises: the `In` operator rejects an empty value set.  (The syntactic
key/value validation always succeeds for the keys and namespace names this
code passes, so it is not modelled.) -/
def newRequirement (key : String) (op : LabelOp) (values : List String) :
    Except GoError LabelRequirement :=
  match op, values with
  | .inOp, [] =>
    .error (.msg "for 'in', 'notin' operators, values set can't be empty")
  | _, _ => .ok { key := key, op := op, values := values }

/-- `labels.Selector.Add`: append the requirements and sort the selector by
key (`sort.Sort(ByKey(...))`, rendered as a stable sort — key ties cannot
arise in this code since exactly one requirement is added). -/
def addRequirement (sel : List LabelRequirement) (req : LabelRequirement) :
    List LabelRequirement :=
  List.insertionSort (fun a b => strLeR a.key b.key) (sel ++ [req])

/-- A field selector term whose field is `scopes.k8s.io/<name>`: the Go
closure recognises it by `strings.Cut(field, "/")` finding a separator with
the part before it equal to `scopes.k8s.io`. -/
def IsScopeTerm (t : String × String) : Prop :=
  ∃ pre post, cutChar '/' t.1.data = some (pre, post) ∧
    String.mk pre = "scopes.k8s.io"

/-- The fold performed by `fieldSelector.Transform` with the closure of
`TransformScopeSelectors`: terms are visited in order; a
`scopes.k8s.io/<name>` term is removed and records the scope `(name, value)`
pair; a second such term fails with BadRequest; every other term is kept
unchanged.  The two trailing arguments are the closure's `scopeName` and
`scopeValue` variables. -/
def extractScopeTerms :
    List (String × String) → String → String →
      Except GoError (List (String × String) × String × String)
  | [], scopeName, scopeValue => .ok ([], scopeName, scopeValue)
  | (field, value) :: rest, scopeName, scopeValue =>
    match cutChar '/' field.data with
    | none =>
      match extractScopeTerms rest scopeName scopeValue with
      | .error e => .error e
      | .ok (kept, n, v) => .ok ((field, value) :: kept, n, v)
    | some (pre, post) =>
      if String.mk pre = "scopes.k8s.io" then
        if scopeName ≠ "" ∨ scopeValue ≠ "" then
          .error (.badRequest "cannot specify more than one scopes.k8s.io label selector")
        else
          extractScopeTerms rest (String.mk post) value
      else
        match extractScopeTerms rest scopeName scopeValue with
        | .error e => .error e
        | .ok (kept, n, v) => .ok ((field, value) :: kept, n, v)

/-- `TransformScopeSelectors` from `endpoints/handlers/scopes.go`: fast path
on a nil field selector; otherwise extract the (single) `scopes.k8s.io/`
term, resolve the scope through the manager (`mgr.GetNamespaces`, passed as
a parameter), and AND the label selector with the single requirement
`metadata.namespace In (ns₁, …)`.  Returns the transformed field selector,
label selector and the scope's minimum resource version. -/
def TransformScopeSelectors
    (getNamespaces : String → String → Except GoError (List String × Nat))
    (fieldSelector : Option (List (String × String)))
    (labelSelector : Option (List LabelRequirement)) :
    Except GoError
      (Option (List (String × String)) × Option (List LabelRequirement) × Nat) :=
  match fieldSelector with
  | none => .ok (none, labelSelector, 0)
  | some fs =>
    match extractScopeTerms fs "" "" with
    | .error e => .error e
    | .ok (fs', scopeName, scopeValue) =>
      if scopeName = "" then .ok (some fs', labelSelector, 0)
      else
        match getNamespaces scopeName scopeValue with
        | .error e => .error (.internalErr e)
        | .ok (namespaces, minimumRV) =>
          let ls := labelSelector.getD []
          match newRequirement "metadata.namespace" .inOp namespaces with
          | .error e => .error (.internalErr e)
          | .ok req => .ok (some fs', some (addRequirement ls req), minimumRV)

/-- A concrete manager used by the C3 counterexample and witness: the scope
`workspace=alpha` resolves to namespaces `ns-a, ns-b` at minimum
resourceVersion 100. -/
def getNamespacesW : String → String → Except GoError (List String × Nat) :=
  fun n v =>
    if n = "workspace" ∧ v = "alpha" then .ok (["ns-a", "ns-b"], 100)
    else .error (.msg "unknown scope")

/-- Counterexample to claim C3 as stated: on the spec's own S4 input (user
selector `app=foo`, scope resolving to `ns-a, ns-b`) the requirement the
code adds uses the key `metadata.namespace` — not
`kubernetes.io/metadata.namespace` — and no `kubernetes.io/`-prefixed key
appears for any resource; the function does not even receive the requested
resource, so no `namespaces`-specific `kubernetes.io/metadata.name`
translation exists either. -/
theorem TransformScopeSelectors_key_counterexample :
    TransformScopeSelectors getNamespacesW
        (some [("scopes.k8s.io/workspace", "alpha")])
        (some [⟨"app", .eqOp, ["foo"]⟩]) =
      .ok (some [], some [⟨"app", .eqOp, ["foo"]⟩,
        ⟨"metadata.namespace", .inOp, ["ns-a", "ns-b"]⟩], 100) ∧
    "kubernetes.io/metadata.namespace" ∉
      ([⟨"app", .eqOp, ["foo"]⟩,
        ⟨"metadata.namespace", .inOp, ["ns-a", "ns-b"]⟩] :
          List LabelRequirement).map (fun r => r.key) ∧
    "kubernetes.io/metadata.name" ∉
      ([⟨"app", .eqOp, ["foo"]⟩,
        ⟨"metadata.namespace", .inOp, ["ns-a", "ns-b"]⟩] :
          List LabelRequirement).map (fun r => r.key) := by
  refine ⟨by rfl, by decide, by decide⟩

theorem cutChar_append (c : Char) (a b : List Char) (h : c ∉ a) :
    cutChar c (a ++ c :: b) = some (a, b) := by
  induction a with
  | nil => simp [cutChar]
  | cons x xs ih =>
    have hx : ¬(x = c) := fun hc => h (by simp [hc])
    rw [List.cons_append]
    simp only [cutChar]
    rw [if_neg hx, ih (fun hm => h (List.mem_cons_of_mem _ hm))]
    rfl

theorem String_mk_data (s : String) : String.mk s.data = s := by
  cases s
  rfl

theorem extractScopeTerms_no_scope :
    ∀ (l : List (String × String)) (n v : String),
      (∀ t ∈ l, ¬ IsScopeTerm t) →
      extractScopeTerms l n v = .ok (l, n, v) := by
  intro l
  induction l with
  | nil => intro n v _; rfl
  | cons t rest ih =>
    intro n v h
    obtain ⟨field, value⟩ := t
    rcases hcut : cutChar '/' field.data with _ | ⟨pre, post⟩
    · simp only [extractScopeTerms, hcut]
      rw [ih n v (fun t ht => h t (List.mem_cons_of_mem _ ht))]
    · have hne : ¬ String.mk pre = "scopes.k8s.io" := by
        intro heq
        exact h (field, value) (List.mem_cons_self _ _) ⟨pre, post, hcut, heq⟩
      simp only [extractScopeTerms, hcut]
      rw [if_neg hne, ih n v (fun t ht => h t (List.mem_cons_of_mem _ ht))]

theorem extractScopeTerms_append (pre : List (String × String))
    (hpre : ∀ t ∈ pre, ¬ IsScopeTerm t) :
    ∀ (rest : List (String × String)) (n v : String),
      extractScopeTerms (pre ++ rest) n v =
        match extractScopeTerms rest n v with
        | .error e => .error e
        | .ok (kept, n', v') => .ok (pre ++ kept, n', v') := by
  induction pre with
  | nil =>
    intro rest n v
    simp only [List.nil_append]
    rcases h : extractScopeTerms rest n v with e | ⟨kept, n', v'⟩ <;> simp
  | cons t ps ih =>
    intro rest n v
    obtain ⟨field, value⟩ := t
    have hns : ¬ IsScopeTerm (field, value) := hpre _ (List.mem_cons_self _ _)
    have hps : ∀ t ∈ ps, ¬ IsScopeTerm t :=
      fun t ht => hpre t (List.mem_cons_of_mem _ ht)
    rw [List.cons_append]
    rcases hcut : cutChar '/' field.data with _ | ⟨p1, p2⟩
    · simp only [extractScopeTerms, hcut]
      rw [ih hps rest n v]
      rcases h : extractScopeTerms rest n v with e | ⟨kept, n', v'⟩ <;> simp
    · have hne : ¬ String.mk p1 = "scopes.k8s.io" := fun heq => hns ⟨p1, p2, hcut, heq⟩
      simp only [extractScopeTerms, hcut]
      rw [if_neg hne, ih hps rest n v]
      rcases h : extractScopeTerms rest n v with e | ⟨kept, n', v'⟩ <;> simp

/-- Claim C3 (amended): for every scoped read carrying exactly one
`scopes.k8s.io/<name>=<value>` field selector term (name non-empty), whose
scope resolves to a non-empty namespace list, the outgoing label selector is
the user-supplied selector AND-ed with the single added requirement
`metadata.namespace In (ns₁,…,nsₖ)` — the same key irrespective of the
requested resource — the scope term is removed from the field selector, and
the scope's minimum resourceVersion is returned. -/
theorem TransformScopeSelectors_adds_requirement
    (getNamespaces : String → String → Except GoError (List String × Nat))
    (pre post : List (String × String)) (n v : String)
    (L : List LabelRequirement) (nss : List String) (minimumRV : Nat)
    (hpre : ∀ t ∈ pre, ¬ IsScopeTerm t) (hpost : ∀ t ∈ post, ¬ IsScopeTerm t)
    (hn : n ≠ "") (hns : nss ≠ [])
    (hget : getNamespaces n v = .ok (nss, minimumRV)) :
    TransformScopeSelectors getNamespaces
        (some (pre ++ (String.append "scopes.k8s.io/" n, v) :: post)) (some L) =
      .ok (some (pre ++ post),
        some (addRequirement L ⟨"metadata.namespace", .inOp, nss⟩), minimumRV) := by
  have hlit : ("scopes.k8s.io/" : String).data =
      ("scopes.k8s.io" : String).data ++ ['/'] := by decide
  have hdata : (String.append "scopes.k8s.io/" n).data =
      ("scopes.k8s.io" : String).data ++ '/' :: n.data := by
    show (("scopes.k8s.io/" : String) ++ n).data = _
    rw [String.data_append, hlit, List.append_assoc]
    rfl
  have hcut2 : cutChar '/' (String.append "scopes.k8s.io/" n).data =
      some (("scopes.k8s.io" : String).data, n.data) := by
    rw [hdata]
    exact cutChar_append '/' _ _ (by decide)
  have hterm : extractScopeTerms
      ((String.append "scopes.k8s.io/" n, v) :: post) "" "" = .ok (post, n, v) := by
    simp only [extractScopeTerms, hcut2]
    rw [if_pos (by decide), if_neg (by simp)]
    rw [String_mk_data n]
    exact extractScopeTerms_no_scope post n v hpost
  have hextract : extractScopeTerms
      (pre ++ (String.append "scopes.k8s.io/" n, v) :: post) "" "" =
      .ok (pre ++ post, n, v) := by
    rw [extractScopeTerms_append pre hpre _ "" "", hterm]
  have hreq : newRequirement "metadata.namespace" .inOp nss =
      .ok ⟨"metadata.namespace", .inOp, nss⟩ := by
    cases nss with
    | nil => exact absurd rfl hns
    | cons a t => rfl
  simp only [TransformScopeSelectors, hextract]
  rw [if_neg hn]
  rw [hget]
  simp only [hreq]
  rfl

/-- Witness for the amended C3 theorem on the spec's S4 input. -/
theorem TransformScopeSelectors_adds_requirement_witness :
    (∀ t ∈ ([] : List (String × String)), ¬ IsScopeTerm t) ∧
    ("workspace" : String) ≠ "" ∧ (["ns-a", "ns-b"] : List String) ≠ [] ∧
    getNamespacesW "workspace" "alpha" = .ok (["ns-a", "ns-b"], 100) ∧
    TransformScopeSelectors getNamespacesW
        (some ([] ++ (String.append "scopes.k8s.io/" "workspace", "alpha") :: []))
        (some [⟨"app", .eqOp, ["foo"]⟩]) =
      .ok (some ([] ++ []),
        some (addRequirement [⟨"app", .eqOp, ["foo"]⟩]
          ⟨"metadata.namespace", .inOp, ["ns-a", "ns-b"]⟩), 100) :=
  ⟨fun t ht => absurd ht (List.not_mem_nil t), by decide, by decide, by rfl,
    TransformScopeSelectors_adds_requirement getNamespacesW [] [] "workspace"
      "alpha" [⟨"app", .eqOp, ["foo"]⟩] ["ns-a", "ns-b"] 100
      (fun t ht => absurd ht (List.not_mem_nil t))
      (fun t ht => absurd ht (List.not_mem_nil t))
      (by decide) (by decide) (by rfl)⟩

/-! ## Scope resolver (`scope/scopedefinition_resolver.go`, `scope_util.go`)

The resolver's `process` worker is embedded as a pure function over the
`(scopeName, scopeValue) → scope` table.  Its external collaborators — the
lister lookup, the store mapper and the status writer — are parameters.
Mutation of the replaced (old) and freshly published (new) scope objects is
tracked in the output, and every panic of the Go code is an explicit
`panicked` result. -/

/-- `ScopeDefinitionStatus` from the scopes API types. -/
structure ScopeDefinitionStatus where
  scopeID : String
  namespaces : List String
  minimumResourceVersions : List MinimumResourceVersion
  serverScopeVersions : List ServerScopeVersion
deriving DecidableEq, Repr

/-- `ScopeDefinition` (name, spec.namespaces, status). -/
structure ScopeDefinition where
  name : String
  specNamespaces : List String
  status : ScopeDefinitionStatus
deriving DecidableEq, Repr

/-- `GetServerScopeVersion` from `scope_util.go`. -/
def GetServerScopeVersion (status : ScopeDefinitionStatus)
    (apiServerID storeID : String) : Option ServerScopeVersion :=
  status.serverScopeVersions.find?
    (fun c => c.apiServerID == apiServerID && c.storeID == storeID)

/-- `filterOutServerScopeVersion` from `scope_util.go`. -/
def filterOutServerScopeVersion (conditions : List ServerScopeVersion)
    (apiServerID storeID : String) : List ServerScopeVersion :=
  conditions.filter
    (fun c => !(c.apiServerID == apiServerID && c.storeID == storeID))

/-- `SetServerScopeVersion` from `scope_util.go`: replace any existing entry
with the same `(apiServerID, storeID)` key, then append. -/
def SetServerScopeVersion (status : ScopeDefinitionStatus)
    (ssv : ServerScopeVersion) : ScopeDefinitionStatus :=
  let current := GetServerScopeVersion status ssv.apiServerID ssv.storeID
  let l :=
    if current.isSome then
      filterOutServerScopeVersion status.serverScopeVersions
        ssv.apiServerID ssv.storeID
    else status.serverScopeVersions
  { status with serverScopeVersions := l ++ [ssv] }

/-- The resolver's `scopeName → (scopeValue → scope)` map, as nested
association lists with unique keys. -/
abbrev ScopesTable := List (String × List (String × GoScope))

/-- Lookup in a Go map modelled as an association list. -/
def assocFind {β : Type} (l : List (String × β)) (k : String) : Option β :=
  (l.find? (fun p => p.1 == k)).map (fun p => p.2)

/-- Insertion/replacement in a Go map modelled as an association list. -/
def assocSet {β : Type} : List (String × β) → String → β → List (String × β)
  | [], k, b => [(k, b)]
  | (k', b') :: rest, k, b =>
    if k' = k then (k, b) :: rest else (k', b') :: assocSet rest k b

/-- Deletion from a Go map modelled as an association list (keys unique). -/
def assocErase {β : Type} : List (String × β) → String → List (String × β)
  | [], _ => []
  | (k', b') :: rest, k =>
    if k' = k then rest else (k', b') :: assocErase rest k

/-- `readScope` (the body of `Resolve`): two-level lookup under the read
lock, failing with the "unknown scope" errors. -/
def readScope (st : ScopesTable) (name value : String) : Except GoError GoScope :=
  match assocFind st name with
  | none => .error (.msg ("unknown scope \"" ++ name ++ "\""))
  | some values =>
    match assocFind values value with
    | none =>
      .error (.msg ("unknown scope value '" ++ name ++ "=" ++ value ++ "'"))
    | some s => .ok s

/-- `buildExpiringScope`: split the definition name on `:` (panicking like
`parts[1]` when no colon is present) and build a current scope whose
`expiredCh` is `new(chan struct{})` — a pointer to a nil channel. -/
def buildExpiringScope : Option ScopeDefinition → Except String (Option GoScope)
  | none => .ok none
  | some d =>
    match splitN2Colon d.name with
    | none => .error "runtime error: index out of range [1] with length 1"
    | some (scopeName, scopeValue) =>
      .ok (some
        { name := scopeName
          value := scopeValue
          namespaces := d.status.namespaces
          identifier := d.status.scopeID
          current := true
          err := none
          expiredCh := some none })

/-- `writeScope` under the write lock: with a definition, build the new
scope and install it at `(name, value)` (creating the inner map when
needed); with `nil`, delete the `(name, value)` entry (a no-op when the
outer key is absent).  The Go `clear` flag is rendered as the match on the
optional definition. -/
def writeScope (st : ScopesTable) (name value : String)
    (d : Option ScopeDefinition) : Except String (ScopesTable × Option GoScope) :=
  match d with
  | none =>
    match assocFind st name with
    | none => .ok (st, none)
    | some inner => .ok (assocSet st name (assocErase inner value), none)
  | some dd =>
    match buildExpiringScope (some dd) with
    | .error p => .error p
    | .ok none => .ok (st, none)
    | .ok (some s) =>
      let inner := (assocFind st name).getD []
      .ok (assocSet st name (assocSet inner value s), some s)

/-- Observable events of one `process` run, in program order. -/
inductive ResolverEvent where
  | published (name value scopeID : String)
  | expireAttempt (scopeID : String)
  | expired (scopeID : String)
  | statusUpdated (ssvs : List ServerScopeVersion)
  | cleared (name value : String)
deriving DecidableEq, Repr

/-- Outcome kind of a `process` run. -/
inductive ProcessResult where
  | ok
  | errored (msg : String)
  | panicked (msg : String)
deriving DecidableEq, Repr

/-- Full outcome of a `process` run: final table, result, event trace, and
the final states of the replaced (old) and freshly built (new) scope
objects when the run touched them. -/
structure ProcessOut where
  table : ScopesTable
  result : ProcessResult
  trace : List ResolverEvent
  oldScopeFinal : Option GoScope
  newScopeFinal : Option GoScope
deriving DecidableEq, Repr

/-- The error path shared by the store-RV fetch and the status update
(`process` lines 196–200 and 209–214): clear the selector from the live
table, expire the freshly published scope with "internal error" (which
panics on its nil expiration channel), and otherwise return the wrapped
error for re-queueing. -/
def clearAndFail (st1 : ScopesTable) (scopeName scopeValue : String)
    (newSc oldSc : GoScope) (trace : List ResolverEvent) (msg : String) :
    ProcessOut :=
  match writeScope st1 scopeName scopeValue none with
  | .error p =>
    { table := st1, result := .panicked p, trace := trace,
      oldScopeFinal := some oldSc, newScopeFinal := some newSc }
  | .ok (st2, _) =>
    let tr2 := trace ++ [.cleared scopeName scopeValue,
      .expireAttempt newSc.identifier]
    match newSc.expireStep (some (.msg "internal error")) with
    | (newSc', some p) =>
      { table := st2, result := .panicked p, trace := tr2,
        oldScopeFinal := some oldSc, newScopeFinal := some newSc' }
    | (newSc', none) =>
      { table := st2, result := .errored msg,
        trace := tr2 ++ [.expired newSc.identifier],
        oldScopeFinal := some oldSc, newScopeFinal := some newSc' }

/-- The per-store loop of `process`: fetch each store's current resource
version and fold it into the (deep-copied) status via
`SetServerScopeVersion`; after the loop, persist the status.  Failures take
the clear-and-expire path. -/
def processStores (st1 : ScopesTable) (scopeName scopeValue : String)
    (newSc oldSc : GoScope) (trace : List ResolverEvent)
    (status : ScopeDefinitionStatus) (apiServerID : String)
    (storeRV : String → Except String Nat)
    (updateStatus : ScopeDefinitionStatus → Except String Unit)
    (defName : String) : List String → ProcessOut
  | [] =>
    match updateStatus status with
    | .error e =>
      clearAndFail st1 scopeName scopeValue newSc oldSc trace
        ("failed to update status for scopedefinition \"" ++ defName ++ "\": " ++ e)
    | .ok _ =>
      { table := st1, result := .ok,
        trace := trace ++ [.statusUpdated status.serverScopeVersions],
        oldScopeFinal := some oldSc, newScopeFinal := some newSc }
  | store :: rest =>
    match storeRV store with
    | .error e =>
      clearAndFail st1 scopeName scopeValue newSc oldSc trace
        ("failed to fetch resourceVersion for store \"" ++ store ++ "\": " ++ e)
    | .ok rv =>
      processStores st1 scopeName scopeValue newSc oldSc trace
        (SetServerScopeVersion status
          ⟨apiServerID, store, newSc.identifier, toString rv⟩)
        apiServerID storeRV updateStatus defName rest

/-- The lister lookup feeding `process`. -/
inductive LookupResult where
  | found (d : ScopeDefinition)
  | notFound
  | lookupErr (msg : String)
deriving DecidableEq, Repr

/-- `DefaultScopeResolver.process`: the single-worker reconciliation step.
NotFound lookups are ignored; the object name is split on `:` (the Go
`parts[1]` panics when there is no colon); a first sighting publishes a new
scope; an unchanged scopeID is a no-op; a changed scopeID publishes the new
scope and then expires the old one (whose `close` of the nil expiration
channel panics), followed — on the path where the expire returns — by the
per-store progress recording and the status update. -/
def DefaultScopeResolver.process (st : ScopesTable) (lookup : LookupResult)
    (stores : List String) (storeRV : String → Except String Nat)
    (apiServerID : String)
    (updateStatus : ScopeDefinitionStatus → Except String Unit) : ProcessOut :=
  match lookup with
  | .notFound =>
    { table := st, result := .ok, trace := [],
      oldScopeFinal := none, newScopeFinal := none }
  | .lookupErr e =>
    { table := st, result := .errored e, trace := [],
      oldScopeFinal := none, newScopeFinal := none }
  | .found d =>
    match splitN2Colon d.name with
    | none =>
      { table := st,
        result := .panicked "runtime error: index out of range [1] with length 1",
        trace := [], oldScopeFinal := none, newScopeFinal := none }
    | some (scopeName, scopeValue) =>
      match (assocFind st scopeName).bind (fun inner => assocFind inner scopeValue) with
      | none =>
        match writeScope st scopeName scopeValue (some d) with
        | .error p =>
          { table := st, result := .panicked p, trace := [],
            oldScopeFinal := none, newScopeFinal := none }
        | .ok (st', ns) =>
          { table := st', result := .ok,
            trace := [.published scopeName scopeValue d.status.scopeID],
            oldScopeFinal := none, newScopeFinal := ns }
      | some existingScope =>
        if existingScope.identifier = d.status.scopeID then
          { table := st, result := .ok, trace := [],
            oldScopeFinal := none, newScopeFinal := none }
        else
          match writeScope st scopeName scopeValue (some d) with
          | .error p =>
            { table := st, result := .panicked p, trace := [],
              oldScopeFinal := none, newScopeFinal := none }
          | .ok (st1, none) =>
            -- unreachable: writeScope with a definition returns the scope
            { table := st1, result := .ok, trace := [],
              oldScopeFinal := none, newScopeFinal := none }
          | .ok (st1, some newSc) =>
            let tr1 := [.published scopeName scopeValue d.status.scopeID,
              .expireAttempt existingScope.identifier]
            match existingScope.expireStep
                (some (.msg "scope configuration changed")) with
            | (old', some p) =>
              { table := st1, result := .panicked p, trace := tr1,
                oldScopeFinal := some old', newScopeFinal := some newSc }
            | (old', none) =>
              processStores st1 scopeName scopeValue newSc old'
                (tr1 ++ [.expired existingScope.identifier]) d.status
                apiServerID storeRV updateStatus d.name stores

/-- What `processNextWorkItem` does with the queue afterwards: `Forget` on
success, `AddRateLimited` on an error return; a panic unwinds past both
(only the deferred `queue.Done` runs) and, re-raised by
`utilruntime.HandleCrash`, crashes the server process. -/
inductive QueueAction where
  | forget
  | addRateLimited
  | crashed
deriving DecidableEq, Repr

def processNextWorkItem : ProcessResult → QueueAction
  | .ok => .forget
  | .errored _ => .addRateLimited
  | .panicked _ => .crashed

/-- S1/S2 inputs: the `workspace:alpha` definition at generation `g1` and
its successor at generation `g2`. -/
def defG1 : ScopeDefinition :=
  { name := "workspace:alpha"
    specNamespaces := ["ns-a", "ns-b"]
    status := { scopeID := "g1", namespaces := ["ns-a", "ns-b"],
                minimumResourceVersions := [], serverScopeVersions := [] } }

def defG2 : ScopeDefinition :=
  { name := "workspace:alpha"
    specNamespaces := ["ns-a", "ns-c"]
    status := { scopeID := "g2", namespaces := ["ns-a", "ns-c"],
                minimumResourceVersions := [], serverScopeVersions := [] } }

/-- A store mapper whose single store `store-X` reports resourceVersion 100,
and a status writer that always succeeds. -/
def storeRVok : String → Except String Nat := fun _ => .ok 100

def updOk : ScopeDefinitionStatus → Except String Unit := fun _ => .ok ()

/-- The live table after the resolver has installed `g1` from empty. -/
def st1W : ScopesTable :=
  (DefaultScopeResolver.process [] (.found defG1) ["store-X"] storeRVok
    "server-1" updOk).table

/-- The `g2` transition over that table, with all collaborators healthy. -/
def outG2 : ProcessOut :=
  DefaultScopeResolver.process st1W (.found defG2) ["store-X"] storeRVok
    "server-1" updOk

/-- The final state of the replaced `g1` scope in the `g2` transition run. -/
def oldG1Final : GoScope :=
  { name := "workspace", value := "alpha", namespaces := ["ns-a", "ns-b"],
    identifier := "g1", current := false,
    err := some (.msg "scope configuration changed"), expiredCh := some none }

/-- Claim C1 (code bug): on the generation transition `g1 → g2` for
`workspace:alpha` — reached from the empty table by two reconciles — the
resolver does swap the new mapping into the table first (the publish event
precedes the expire attempt and `Resolve` returns the `g2` mapping), but
expiring the old mapping panics: `expire` closes the nil channel allocated
by `new(chan struct{})` in `buildExpiringScope`.  The old mapping's
expiration signal therefore never fires (`Expired` still reports `false`,
its channel is still the nil channel), the worker crashes, and the
"signal closed with reason scope configuration changed, then Resolve
returns the new mapping" behaviour the claim describes never completes. -/
theorem process_transition_panics_closing_nil_channel :
    (DefaultScopeResolver.process [] (.found defG1) ["store-X"] storeRVok
        "server-1" updOk).result = .ok ∧
    outG2.result = .panicked "close of nil channel" ∧
    outG2.trace = [.published "workspace" "alpha" "g2", .expireAttempt "g1"] ∧
    readScope outG2.table "workspace" "alpha" =
      .ok { name := "workspace", value := "alpha",
            namespaces := ["ns-a", "ns-c"], identifier := "g2",
            current := true, err := none, expiredCh := some none } ∧
    outG2.oldScopeFinal = some oldG1Final ∧
    Expired oldG1Final = false := by
  refine ⟨rfl, rfl, rfl, rfl, rfl, rfl⟩

/-- A store mapper whose `CurrentResourceVersion` fails. -/
def storeRVfail : String → Except String Nat :=
  fun _ => .error "etcdserver: request timed out"

/-- The `g2` transition over the `g1` table when the store RV fetch would
fail. -/
def outG2fail : ProcessOut :=
  DefaultScopeResolver.process st1W (.found defG2) ["store-X"] storeRVfail
    "server-1" updOk

/-- Claim C7 (code bug): the rollback path for transition errors is
unreachable.  With a failing store, `process` still panics earlier, while
expiring the old mapping (close of the nil expiration channel): the store
fetch never runs, the selector entry is not cleared (Resolve still returns
the freshly published `g2` mapping), the new mapping is never expired with
"internal error", and the worker crashes instead of re-queueing the key
rate-limited. -/
theorem process_rollback_unreachable_on_store_error :
    outG2fail.result = .panicked "close of nil channel" ∧
    outG2fail.trace = [.published "workspace" "alpha" "g2", .expireAttempt "g1"] ∧
    (ResolverEvent.cleared "workspace" "alpha") ∉ outG2fail.trace ∧
    (ResolverEvent.expired "g2") ∉ outG2fail.trace ∧
    readScope outG2fail.table "workspace" "alpha" =
      .ok { name := "workspace", value := "alpha",
            namespaces := ["ns-a", "ns-c"], identifier := "g2",
            current := true, err := none, expiredCh := some none } ∧
    processNextWorkItem outG2fail.result = .crashed := by
  refine ⟨rfl, rfl, by decide, by decide, rfl, rfl⟩

/-- A ScopeDefinition whose object name has no `:` separator. -/
def defBadName : ScopeDefinition :=
  { name := "badname"
    specNamespaces := []
    status := { scopeID := "g1", namespaces := [],
                minimumResourceVersions := [], serverScopeVersions := [] } }

/-- Claim C8 (code bug): processing an event for a ScopeDefinition named
`badname` (no colon) panics — `strings.SplitN` returns a single element and
the Go code indexes `parts[1]` — instead of logging and dropping the item.
The live table is untouched, but the worker crashes rather than continuing. -/
theorem process_malformed_name_panics :
    DefaultScopeResolver.process st1W (.found defBadName) ["store-X"]
        storeRVok "server-1" updOk =
      { table := st1W,
        result := .panicked "runtime error: index out of range [1] with length 1",
        trace := [], oldScopeFinal := none, newScopeFinal := none } ∧
    processNextWorkItem (DefaultScopeResolver.process st1W (.found defBadName)
        ["store-X"] storeRVok "server-1" updOk).result = .crashed := by
  refine ⟨rfl, rfl⟩

/-! ## Scoped watch handler (`scope/scope_watch_handler.go`)

The gate is a state machine: the embedded `scope`, the buffered
minimum-resource-version channel (capacity 10), the unbuffered
initial-resource-version channel (tracked by whether it has been closed),
and the worker goroutine's phase.  The modelled schedule lets the worker
run to its next blocking point after each delivery: after receiving the
initial resource version the worker returns from
`readInitialResourceVersion`, whose deferred `close` closes the channel,
and enters the select loop. -/

/-- Phase of the `waitForMinimumResourceVersion` worker. -/
inductive WorkerPhase where
  | awaitingInitial
  | looping (initialRV : Nat)
  | terminated (panicked : Bool)
deriving DecidableEq, Repr

/-- Results of the gate's setter methods: error return or run-time panic. -/
inductive SetResult where
  | ok
  | errored (msg : String)
  | panicked (msg : String)
deriving DecidableEq, Repr

/-- The `scopeWatchHandler` state. -/
structure Gate where
  parent : GoScope
  wh : GoScope
  minRVBuf : List Nat
  minRVClosed : Bool
  initialChClosed : Bool
  worker : WorkerPhase
deriving DecidableEq, Repr

def minimumResourceVersionUpdateChannelSize : Nat := 10

/-- `NewScopeWatchHandler`: the embedded scope copies the parent's value,
identifier and namespaces, is current, and gets
`expiredCh: new(chan struct{})` — a pointer to a nil channel; the worker
goroutine is started and blocks reading the initial resource version. -/
def NewScopeWatchHandler (parent : GoScope) : Gate :=
  { parent := parent
    wh := { name := parent.name, value := parent.value,
            namespaces := parent.namespaces, identifier := parent.identifier,
            current := true, err := none, expiredCh := some none }
    minRVBuf := []
    minRVClosed := false
    initialChClosed := false
    worker := .awaitingInitial }

/-- `SetMinimumResourceVersion`: non-blocking send on the buffered channel;
"processing blocked" when the buffer is full; sending on the channel after
the worker's deferred `close` is a run-time panic. -/
def SetMinimumResourceVersion (g : Gate) (rv : Nat) : SetResult × Gate :=
  if g.minRVClosed then (.panicked "send on closed channel", g)
  else if g.minRVBuf.length < minimumResourceVersionUpdateChannelSize then
    (.ok, { g with minRVBuf := g.minRVBuf ++ [rv] })
  else
    (.errored "scope watch handler processing blocked, minimum resource version not acknowledged",
      g)

/-- `SetInitialResourceVersion`: each call wraps its body in a fresh
`sync.OnceValue`, so the once-guard never spans two calls and the behaviour
is that of the body alone.  The body's select sends on the unbuffered
`initialResourceVersionChan`: when the worker is waiting, the send succeeds
and the worker (closing the channel on its way out of
`readInitialResourceVersion`) enters the loop with the value; when the
channel has already been closed, the send case of the select is chosen and
panics; otherwise the ~100ms grace ticker fires and the call returns the
"already set" error. -/
def SetInitialResourceVersion (g : Gate) (rv : Nat) : SetResult × Gate :=
  if g.initialChClosed then (.panicked "send on closed channel", g)
  else
    match g.worker with
    | .awaitingInitial =>
      (.ok, { g with worker := .looping rv, initialChClosed := true })
    | _ =>
      (.errored "initial resource version already set in scoped watch handler", g)

/-- Worker termination: the two defers of `waitForMinimumResourceVersion`
run in LIFO order — `close(wh.minimumResourceVersion)` first, then
`wh.expire(err)` (whose close of the nil expiration channel panics; the
error is recorded in the scope's `err` field before the close). -/
def workerTerminate (g : Gate) (cause : Option GoError) : Gate :=
  let g1 := { g with minRVClosed := true }
  match g1.wh.expireStep cause with
  | (wh', some _) => { g1 with wh := wh', worker := .terminated true }
  | (wh', none) => { g1 with wh := wh', worker := .terminated false }

/-- The `minimumRV := <-wh.minimumResourceVersion` arm of the worker's
select loop: dequeue the next update; terminate with
`NewResourceExpired(initialRV, minimumRV)` when the initial resource
version is below the minimum, otherwise continue looping. -/
def workerReceiveMinRV (g : Gate) : Gate :=
  match g.worker, g.minRVBuf with
  | .looping initialRV, m :: rest =>
    let g' := { g with minRVBuf := rest }
    if initialRV < m then
      workerTerminate g' (some (.resourceExpired initialRV m))
    else g'
  | _, _ => g

/-- The parent mapping and the spec's S3 gate: a watch started with
initialRV 50 on a scope whose generation transition recorded minimum 100. -/
def parentW : GoScope :=
  { name := "workspace", value := "alpha", namespaces := ["ns-a"],
    identifier := "g1", current := true, err := none, expiredCh := some none }

def gateW : Gate :=
  { NewScopeWatchHandler parentW with worker := .looping 50, minRVBuf := [100] }

/-- The same gate with initialRV 100 receiving the lower update 50. -/
def gateHighW : Gate :=
  { NewScopeWatchHandler parentW with worker := .looping 100, minRVBuf := [50] }

/-- Claim C4 (code bug): on the spec's S3 input — a gate whose initial
resource version is 50 receiving the minimum-RV update 100 — the worker
does take the `initialRV < minimumRV` branch and computes
`ResourceExpired(50, 100)`, but its deferred `wh.expire(err)` then closes
the nil expiration channel allocated by `new(chan struct{})` in
`NewScopeWatchHandler` and panics, crashing the process: the cause is
recorded in the embedded scope's `err` field, yet the expiration signal
never fires (`Expired` still reports `false` — the channel is still the nil
channel), so the watch stream and the client never receive the
ResourceExpired error the claim describes.  The `i ≥ m` half of the claim
does hold: the update is consumed and the gate keeps running unchanged. -/
theorem workerReceiveMinRV_panics_on_floor_violation :
    (workerReceiveMinRV gateW).worker = .terminated true ∧
    (workerReceiveMinRV gateW).wh.err = some (.resourceExpired 50 100) ∧
    (workerReceiveMinRV gateW).wh.current = false ∧
    (workerReceiveMinRV gateW).minRVClosed = true ∧
    (workerReceiveMinRV gateW).wh.expiredCh = some none ∧
    Expired (workerReceiveMinRV gateW).wh = false ∧
    workerReceiveMinRV gateHighW = { gateHighW with minRVBuf := [] } := by
  refine ⟨rfl, rfl, rfl, rfl, rfl, rfl, rfl⟩

/-- Claim C6 (code bug): the first `SetInitialResourceVersion` call on a
fresh gate succeeds, but the second call panics — the worker closed the
unbuffered `initialResourceVersionChan` after reading the first value, and
the select's send case on the closed channel is chosen over `default`
(`sync.OnceValue` is recreated on every call, so it guards nothing, and the
"already set" error return is reachable only in the sub-100ms window before
the deferred close runs).  The claim's graceful "subsequent calls fail by
returning an error" never happens on this schedule. -/
theorem SetInitialResourceVersion_second_call_panics :
    (SetInitialResourceVersion (NewScopeWatchHandler parentW) 5).1 = .ok ∧
    ((SetInitialResourceVersion (NewScopeWatchHandler parentW) 5).2).worker =
      .looping 5 ∧
    (SetInitialResourceVersion
        ((SetInitialResourceVersion (NewScopeWatchHandler parentW) 5).2) 7).1 =
      .panicked "send on closed channel" ∧
    (SetInitialResourceVersion
        ((SetInitialResourceVersion (NewScopeWatchHandler parentW) 5).2) 7).2 =
      (SetInitialResourceVersion (NewScopeWatchHandler parentW) 5).2 := by
  refine ⟨rfl, rfl, rfl, rfl⟩
